import Mathlib

set_option maxRecDepth 10000

/-!
Verification development for the aircraft-alert server
(`main.go`, `models.go`): a shallow embedding of the alert-matching
engine, the SSE broadcast hub and the HTTP handlers, with theorems
about the properties the specification states.

Time (`time.Time`) is modelled as an abstract tick counter `Time := Nat`;
each call of `time.Now()` in a handler consumes the current tick and
advances the clock.  JSON marshalling (`json.Marshal`), which in Go can
fail, is modelled by an oracle `Aircraft → Option String` /
`Alert → Option String` passed to the handler.  Decoding of a request
body is modelled by the handler receiving the decode result as an
`Option` value.
-/

namespace AircraftAlert

abbrev Time := Nat

/-- `Aircraft` from `models.go`: basic ADS-B data. The four geometric
fields are carried but never inspected by the server. -/
structure Aircraft where
  icao : String
  callsign : String
  lat : Float
  lon : Float
  alt_baro : Int
  gs : Float
  track : Float
  timestamp : Time
deriving Repr

/-- `AlertCriteria` from `models.go`; an absent JSON field decodes to `""`. -/
structure AlertCriteria where
  icao : String := ""
  callsign : String := ""
deriving Repr, DecidableEq

/-- `Alert` from `models.go`. -/
structure Alert where
  aircraft : Aircraft
  message : String
  criteria : AlertCriteria
  timestamp : Time
deriving Repr

/-- The two `if` statements of the matching loop in the
`POST /api/aircraft` handler (`main.go`): `match` ends up `true` iff
either populated criterion field equals the corresponding aircraft
field. -/
def matchesCriterion (criterion : AlertCriteria) (aircraft : Aircraft) : Bool :=
  (criterion.icao != "" && criterion.icao == aircraft.icao) ||
  (criterion.callsign != "" && criterion.callsign == aircraft.callsign)

/-- The `Alert` literal built in the matching loop of the
`POST /api/aircraft` handler. -/
def mkAlert (aircraft : Aircraft) (criterion : AlertCriteria) (t : Time) : Alert :=
  { aircraft := aircraft
  , message := "Monitored aircraft detected: " ++ aircraft.callsign ++
      " (" ++ aircraft.icao ++ ")"
  , criteria := criterion
  , timestamp := t }

/-- SSE wire frame built in the `POST /api/aircraft` handler:
`"event: <name>\ndata: <json>\n\n"`. -/
def sseFrame (event : String) (data : String) : String :=
  "event: " ++ event ++ "\ndata: " ++ data ++ "\n\n"

/-- The `for _, criterion := range alertCriteria` loop of the
`POST /api/aircraft` handler: for each criterion in list order, if it
matches, build an alert (timestamped with a fresh `time.Now()` tick),
append it to the produced alert list, and, when `json.Marshal` of the
alert succeeds, emit one `alert` SSE frame.  Returns the alerts
produced, the frames broadcast, and the advanced clock. -/
def processCriteria (marshalAlert : Alert → Option String) (aircraft : Aircraft) :
    List AlertCriteria → Time → List Alert × List String × Time
  | [], t => ([], [], t)
  | c :: rest, t =>
    if matchesCriterion c aircraft then
      let al := mkAlert aircraft c t
      let r := processCriteria marshalAlert aircraft rest (t + 1)
      (al :: r.1,
       (match marshalAlert al with
        | none => r.2.1
        | some s => sseFrame "alert" s :: r.2.1),
       r.2.2)
    else
      processCriteria marshalAlert aircraft rest t

/-- The pure matching engine: the alerts produced by the matching loop,
independent of the marshal oracle (the specified
`evaluate(aircraft, criteria) → list<Alert>`). -/
def evaluateAlerts (aircraft : Aircraft) : List AlertCriteria → Time → List Alert
  | [], _ => []
  | c :: rest, t =>
    if matchesCriterion c aircraft then
      mkAlert aircraft c t :: evaluateAlerts aircraft rest (t + 1)
    else
      evaluateAlerts aircraft rest t

theorem processCriteria_alerts (mAl : Alert → Option String) (a : Aircraft)
    (cs : List AlertCriteria) (t : Time) :
    (processCriteria mAl a cs t).1 = evaluateAlerts a cs t := by
  induction cs generalizing t with
  | nil => rfl
  | cons c rest ih =>
    simp only [processCriteria, evaluateAlerts]
    by_cases h : matchesCriterion c a
    · simp [h, ih]
    · simp [h, ih]

theorem processCriteria_msgs (mAl : Alert → Option String) (a : Aircraft)
    (cs : List AlertCriteria) (t : Time) :
    (processCriteria mAl a cs t).2.1 =
      (evaluateAlerts a cs t).filterMap
        (fun al => (mAl al).map (fun s => sseFrame "alert" s)) := by
  induction cs generalizing t with
  | nil => rfl
  | cons c rest ih =>
    simp only [processCriteria, evaluateAlerts]
    by_cases h : matchesCriterion c a
    · simp only [h, if_true, List.filterMap_cons]
      cases hm : mAl (mkAlert a c t) <;> simp [hm, ih]
    · simp [h, ih]

theorem evaluateAlerts_criteria (a : Aircraft) (cs : List AlertCriteria) (t : Time) :
    (evaluateAlerts a cs t).map Alert.criteria =
      cs.filter (fun c => matchesCriterion c a) := by
  induction cs generalizing t with
  | nil => rfl
  | cons c rest ih =>
    simp only [evaluateAlerts, List.filter_cons]
    by_cases h : matchesCriterion c a
    · simp [h, ih, mkAlert]
    · simp [h, ih]

theorem evaluateAlerts_aircraft (a : Aircraft) (cs : List AlertCriteria) (t : Time) :
    ∀ al ∈ evaluateAlerts a cs t, al.aircraft = a := by
  induction cs generalizing t with
  | nil => intro al h; cases h
  | cons c rest ih =>
    intro al hal
    simp only [evaluateAlerts] at hal
    by_cases h : matchesCriterion c a
    · simp only [h, if_true, List.mem_cons] at hal
      cases hal with
      | inl he => rw [he]; rfl
      | inr ht => exact ih _ al ht
    · simp only [h, if_false] at hal
      exact ih _ al hal

/-! ## The broadcast hub (`Hub` and `Hub.run` in `main.go`)

A `Client` is an SSE connection: an identifier (modelling the Go
pointer identity of `*Client`) and the contents of its buffered `Send`
channel (`make(chan []byte, 256)` in the `GET /api/events` handler).
The `clients map[*Client]bool` field of the hub is modelled as the list of
registered clients; the map invariant is that the identifiers are
duplicate-free.  `Hub.run` processes one request at a time; each step
returns the new hub state together with the identifiers of the clients
whose `Send` channel was closed during that step. -/

abbrev Msg := String

/-- Capacity of the per-client `Send` channel, from the `GET /api/events`
handler. -/
def sendCapacity : Nat := 256

/-- `Client` from `main.go`: connection id and buffered `Send` queue. -/
structure Client where
  id : Nat
  send : List Msg
deriving Repr, DecidableEq

/-- A fresh client as created by the `GET /api/events` handler: empty
`Send` buffer. -/
def mkClient (id : Nat) : Client :=
  { id := id, send := [] }

/-- The hub state: the `clients` map, as the list of registered
clients. -/
structure HubState where
  clients : List Client
deriving Repr, DecidableEq

/-- Identifiers of the currently registered clients. -/
def hubIds (h : HubState) : List Nat :=
  h.clients.map Client.id

/-- The three request kinds read by the `select` in `Hub.run`. -/
inductive HubReq where
  | register (c : Client)
  | unregister (id : Nat)
  | broadcast (m : Msg)
deriving Repr, DecidableEq

/-- The `case message := <-h.broadcast` loop: for each registered
client, a non-blocking send (`select` with `default`).  If the
buffer has room the message is appended; otherwise the client is
deleted from the map and its channel closed.  Returns the surviving
clients and the identifiers closed. -/
def broadcastClients (m : Msg) : List Client → List Client × List Nat
  | [] => ([], [])
  | c :: rest =>
    let r := broadcastClients m rest
    if c.send.length < sendCapacity then
      ({ c with send := c.send ++ [m] } :: r.1, r.2)
    else
      (r.1, c.id :: r.2)

/-- One iteration of `Hub.run`: `register` inserts the client into the
map (`h.clients[client] = true`, a no-op when the key is present);
`unregister` deletes and closes only when the client is present;
`broadcast` fans out as in `broadcastClients`. -/
def hubStep (h : HubState) : HubReq → HubState × List Nat
  | .register c =>
    if c.id ∈ hubIds h then (h, [])
    else ({ clients := h.clients ++ [c] }, [])
  | .unregister id =>
    if id ∈ hubIds h then
      ({ clients := h.clients.filter (fun c => c.id != id) }, [id])
    else (h, [])
  | .broadcast m =>
    let r := broadcastClients m h.clients
    ({ clients := r.1 }, r.2)

/-- `Hub.run` over a request sequence, accumulating every channel-close
it performs. -/
def hubRun (h : HubState) : List HubReq → HubState × List Nat
  | [] => (h, [])
  | r :: rs =>
    let s := hubStep h r
    let s2 := hubRun s.1 rs
    (s2.1, s.2 ++ s2.2)

/-- Identifiers of the clients a request sequence registers. -/
def regIds : List HubReq → List Nat
  | [] => []
  | .register c :: rs => c.id :: regIds rs
  | .unregister _ :: rs => regIds rs
  | .broadcast _ :: rs => regIds rs

theorem broadcastClients_ids_sublist (m : Msg) (cs : List Client) :
    ((broadcastClients m cs).1.map Client.id).Sublist (cs.map Client.id) := by
  induction cs with
  | nil => simp [broadcastClients]
  | cons c rest ih =>
    simp only [broadcastClients, List.map_cons]
    by_cases h : c.send.length < sendCapacity
    · simpa [h] using ih.cons₂ c.id
    · simpa [h] using ih.cons c.id

theorem broadcastClients_closed_sublist (m : Msg) (cs : List Client) :
    ((broadcastClients m cs).2).Sublist (cs.map Client.id) := by
  induction cs with
  | nil => simp [broadcastClients]
  | cons c rest ih =>
    simp only [broadcastClients, List.map_cons]
    by_cases h : c.send.length < sendCapacity
    · simpa [h] using ih.cons c.id
    · simpa [h] using ih.cons₂ c.id

theorem broadcastClients_closed_not_survivor (m : Msg) (cs : List Client)
    (hnd : (cs.map Client.id).Nodup) (i : Nat)
    (hi : i ∈ (broadcastClients m cs).2) :
    i ∉ (broadcastClients m cs).1.map Client.id := by
  induction cs with
  | nil => simp [broadcastClients] at hi
  | cons c rest ih =>
    simp only [List.map_cons, List.nodup_cons] at hnd
    simp only [broadcastClients] at hi ⊢
    by_cases h : c.send.length < sendCapacity
    · simp only [h, if_true] at hi ⊢
      simp only [List.map_cons, List.mem_cons, not_or]
      constructor
      · intro he
        exact hnd.1 (he ▸ List.Sublist.mem hi (broadcastClients_closed_sublist m rest))
      · exact ih hnd.2 hi
    · simp only [h, if_false] at hi ⊢
      cases List.mem_cons.mp hi with
      | inl he =>
        intro hmem
        exact hnd.1 (he ▸ List.Sublist.mem hmem (broadcastClients_ids_sublist m rest))
      | inr ht => exact ih hnd.2 ht

theorem broadcastClients_spec (m : Msg) (cs : List Client) (c : Client)
    (hnd : (cs.map Client.id).Nodup) (hc : c ∈ cs) :
    (c.send.length < sendCapacity →
      { c with send := c.send ++ [m] } ∈ (broadcastClients m cs).1 ∧
      c.id ∉ (broadcastClients m cs).2) ∧
    (sendCapacity ≤ c.send.length →
      c.id ∉ (broadcastClients m cs).1.map Client.id ∧
      c.id ∈ (broadcastClients m cs).2) := by
  induction cs with
  | nil => cases hc
  | cons x rest ih =>
    simp only [List.map_cons, List.nodup_cons] at hnd
    rcases List.mem_cons.mp hc with he | ht
    · subst he
      constructor
      · intro hlt
        simp only [broadcastClients, hlt, if_true]
        refine ⟨List.mem_cons_self _ _, ?_⟩
        intro hmem
        exact hnd.1 (List.Sublist.mem hmem (broadcastClients_closed_sublist m rest))
      · intro hge
        have hnlt : ¬ c.send.length < sendCapacity := not_lt.mpr hge
        simp only [broadcastClients, hnlt, if_false]
        refine ⟨?_, List.mem_cons_self _ _⟩
        intro hmem
        exact hnd.1 (List.Sublist.mem hmem (broadcastClients_ids_sublist m rest))
    · have hne : c.id ≠ x.id := by
        intro he2
        exact hnd.1 (he2 ▸ List.mem_map_of_mem Client.id ht)
      constructor
      · intro hlt
        have r := (ih hnd.2 ht).1 hlt
        by_cases hx : x.send.length < sendCapacity
        · simp only [broadcastClients, hx, if_true]
          exact ⟨List.mem_cons_of_mem _ r.1, r.2⟩
        · simp only [broadcastClients, hx, if_false]
          refine ⟨r.1, ?_⟩
          simp only [List.mem_cons, not_or]
          exact ⟨hne, r.2⟩
      · intro hge
        have r := (ih hnd.2 ht).2 hge
        by_cases hx : x.send.length < sendCapacity
        · simp only [broadcastClients, hx, if_true, List.map_cons, List.mem_cons, not_or]
          exact ⟨⟨hne, r.1⟩, r.2⟩
        · simp only [broadcastClients, hx, if_false]
          exact ⟨r.1, List.mem_cons_of_mem _ r.2⟩

theorem regIds_cons (r : HubReq) (rs : List HubReq) :
    regIds (r :: rs) = regIds [r] ++ regIds rs := by
  cases r <;> simp [regIds]

theorem hubStep_ids_sublist (h : HubState) (r : HubReq) :
    (hubIds (hubStep h r).1).Sublist (hubIds h ++ regIds [r]) := by
  cases r with
  | register c =>
    by_cases hmem : c.id ∈ hubIds h
    · simp [hubStep, hmem, regIds]
    · simp only [hubStep, regIds]
      rw [if_neg hmem]
      simp only [hubIds, List.map_append, List.map_cons, List.map_nil]
      exact List.Sublist.refl _
  | unregister i =>
    by_cases hmem : i ∈ hubIds h
    · simpa [hubStep, hmem, regIds] using
        ((List.filter_sublist h.clients).map Client.id)
    · simp [hubStep, hmem, regIds]
  | broadcast m =>
    simpa [hubStep, regIds, hubIds] using broadcastClients_ids_sublist m h.clients

theorem hubStep_closed_sub (h : HubState) (r : HubReq) (i : Nat)
    (hi : i ∈ (hubStep h r).2) : i ∈ hubIds h := by
  cases r with
  | register c =>
    by_cases hmem : c.id ∈ hubIds h <;> simp [hubStep, hmem] at hi
  | unregister j =>
    by_cases hmem : j ∈ hubIds h
    · simp only [hubStep, hmem, if_true, List.mem_singleton] at hi
      exact hi ▸ hmem
    · simp [hubStep, hmem] at hi
  | broadcast m =>
    simp only [hubStep] at hi
    exact List.Sublist.mem hi (broadcastClients_closed_sublist m h.clients)

theorem hubStep_closed_nodup (h : HubState) (r : HubReq)
    (hwf : (hubIds h).Nodup) : (hubStep h r).2.Nodup := by
  cases r with
  | register c => by_cases hmem : c.id ∈ hubIds h <;> simp [hubStep, hmem]
  | unregister j => by_cases hmem : j ∈ hubIds h <;> simp [hubStep, hmem]
  | broadcast m =>
    simp only [hubStep]
    exact hwf.sublist (broadcastClients_closed_sublist m h.clients)

theorem hubStep_closed_removed (h : HubState) (r : HubReq)
    (hwf : (hubIds h).Nodup) (i : Nat) (hi : i ∈ (hubStep h r).2) :
    i ∉ hubIds (hubStep h r).1 := by
  cases r with
  | register c =>
    by_cases hmem : c.id ∈ hubIds h <;> simp [hubStep, hmem] at hi
  | unregister j =>
    by_cases hmem : j ∈ hubIds h
    · simp only [hubStep, hmem, if_true, List.mem_singleton] at hi
      subst hi
      have hstep : hubStep h (.unregister i)
          = ({ clients := h.clients.filter (fun c => c.id != i) }, [i]) := by
        unfold hubStep
        exact if_pos hmem
      rw [hstep]
      simp only [hubIds, List.mem_map, not_exists, not_and]
      rintro x hx hxid
      rw [List.mem_filter, hxid] at hx
      simp at hx
    · simp [hubStep, hmem] at hi
  | broadcast m =>
    simp only [hubStep] at hi ⊢
    exact broadcastClients_closed_not_survivor m h.clients hwf i hi

theorem hubStep_not_closed_again (rs : List HubReq) (h : HubState) (i : Nat)
    (hid : i ∉ hubIds h) (hreg : i ∉ regIds rs) :
    i ∉ (hubRun h rs).2 := by
  induction rs generalizing h with
  | nil => simp [hubRun]
  | cons r rest ih =>
    simp only [hubRun, List.mem_append, not_or]
    rw [regIds_cons, List.mem_append, not_or] at hreg
    constructor
    · intro hmem
      exact hid (hubStep_closed_sub h r i hmem)
    · apply ih
      · intro hmem
        rcases List.mem_append.mp (List.Sublist.mem hmem (hubStep_ids_sublist h r)) with
          h1 | h2
        · exact hid h1
        · exact hreg.1 h2
      · exact hreg.2

theorem hubStep_preserves_fresh (h : HubState) (r : HubReq) (rs : List HubReq)
    (hfresh : (hubIds h ++ regIds (r :: rs)).Nodup) :
    (hubIds (hubStep h r).1 ++ regIds rs).Nodup := by
  have hsub : (hubIds (hubStep h r).1 ++ regIds rs).Sublist
      (hubIds h ++ regIds (r :: rs)) := by
    rw [regIds_cons, ← List.append_assoc]
    exact (hubStep_ids_sublist h r).append_right (regIds rs)
  exact hfresh.sublist hsub

theorem hubRun_count_le_one (rs : List HubReq) :
    ∀ (h : HubState) (i : Nat), (hubIds h ++ regIds rs).Nodup →
      (hubRun h rs).2.count i ≤ 1 := by
  induction rs with
  | nil => intro h i _; simp [hubRun]
  | cons r rest ih =>
    intro h i hfresh
    have hwf : (hubIds h).Nodup := (List.nodup_append.mp hfresh).1
    simp only [hubRun, List.count_append]
    by_cases hc1 : i ∈ (hubStep h r).2
    · have h1 : (hubStep h r).2.count i ≤ 1 :=
        List.nodup_iff_count_le_one.mp (hubStep_closed_nodup h r hwf) i
      have hidh : i ∈ hubIds h := hubStep_closed_sub h r i hc1
      have hdisj : (hubIds h).Disjoint (regIds (r :: rest)) :=
        (List.nodup_append.mp hfresh).2.2
      have hnotreg : i ∉ regIds rest := by
        intro hmem
        exact hdisj hidh (by rw [regIds_cons]; exact List.mem_append_right _ hmem)
      have h2 : i ∉ (hubRun (hubStep h r).1 rest).2 :=
        hubStep_not_closed_again rest (hubStep h r).1 i
          (hubStep_closed_removed h r hwf i hc1) hnotreg
      have h2c : (hubRun (hubStep h r).1 rest).2.count i = 0 :=
        List.count_eq_zero.mpr h2
      omega
    · have h1 : (hubStep h r).2.count i = 0 := List.count_eq_zero.mpr hc1
      have h2 := ih (hubStep h r).1 i (hubStep_preserves_fresh h r rest hfresh)
      omega

theorem countP_eq_one_of_nodup_mem {l : List Client}
    (hnd : (l.map Client.id).Nodup) {i : Nat} (hmem : i ∈ l.map Client.id) :
    l.countP (fun x => x.id == i) = 1 := by
  induction l with
  | nil => simp at hmem
  | cons x rest ih =>
    simp only [List.map_cons, List.nodup_cons] at hnd
    simp only [List.map_cons, List.mem_cons] at hmem
    rw [List.countP_cons]
    rcases hmem with he | ht
    · subst he
      have hz : rest.countP (fun y => y.id == x.id) = 0 := by
        rw [List.countP_eq_zero]
        intro a ha
        simp only [beq_iff_eq]
        intro he2
        exact hnd.1 (he2 ▸ List.mem_map_of_mem Client.id ha)
      simp [hz]
    · have h1 := ih hnd.2 ht
      have hne : x.id ≠ i := by
        intro he2
        exact hnd.1 (he2 ▸ ht)
      simp [h1, hne]

/-- The hub with no clients, as built by `newHub` in `main.go`. -/
def hubEmpty : HubState := { clients := [] }

/-- A client whose 256-slot `Send` buffer is saturated. -/
def fullClient : Client := { id := 1, send := List.replicate sendCapacity "x" }

/-- A client with room in its `Send` buffer. -/
def roomClient : Client := mkClient 2

/-- A hub with one saturated and one responsive client. -/
def demoHub : HubState := { clients := [fullClient, roomClient] }

/-- C2: when the hub processes a broadcast, the enqueue onto each
registered client is decided by the queue of that client alone: a client
with room keeps its membership and receives the message appended to its
queue and is not closed, while a client whose queue is full (capacity
256) is removed from the client set and closed; this holds for every
registered client simultaneously, so one full queue never prevents
delivery to the remaining clients. -/
theorem hub_broadcast_nonblocking_isolation (h : HubState) (m : Msg) (c : Client)
    (hwf : (hubIds h).Nodup) (hc : c ∈ h.clients) :
    (c.send.length < sendCapacity →
      { c with send := c.send ++ [m] } ∈ (hubStep h (.broadcast m)).1.clients ∧
      c.id ∉ (hubStep h (.broadcast m)).2) ∧
    (sendCapacity ≤ c.send.length →
      c.id ∉ hubIds (hubStep h (.broadcast m)).1 ∧
      c.id ∈ (hubStep h (.broadcast m)).2) := by
  have hs := broadcastClients_spec m h.clients c hwf hc
  simpa [hubStep, hubIds] using hs

/-- Witness for C2: a hub holding a saturated client and a responsive
client; broadcasting removes and closes the saturated one. -/
theorem hub_broadcast_nonblocking_isolation_witness :
    ((hubIds demoHub).Nodup ∧ fullClient ∈ demoHub.clients) ∧
    ((fullClient.send.length < sendCapacity →
      { fullClient with send := fullClient.send ++ ["m"] }
          ∈ (hubStep demoHub (.broadcast "m")).1.clients ∧
      fullClient.id ∉ (hubStep demoHub (.broadcast "m")).2) ∧
    (sendCapacity ≤ fullClient.send.length →
      fullClient.id ∉ hubIds (hubStep demoHub (.broadcast "m")).1 ∧
      fullClient.id ∈ (hubStep demoHub (.broadcast "m")).2)) :=
  ⟨⟨by decide, by decide⟩,
    hub_broadcast_nonblocking_isolation demoHub "m" fullClient
      (by decide) (by decide)⟩

/-- C3 counterexample: registering the same client twice with the hub
does not yield two memberships.  Starting from the empty hub, two
register requests for the client with id 1 leave exactly one entry
whose id is 1 in the client set, refuting the claimed count of two. -/
theorem register_twice_counterexample :
    ¬ (((hubStep (hubStep hubEmpty (.register (mkClient 1))).1
          (.register (mkClient 1))).1.clients.countP
        (fun c => c.id == 1)) = 2) := by decide

/-- C3 amended: registration is idempotent.  `clients` is a
`map[*Client]bool`, so a second register request for a client already
in the set is a no-op, and after registering a client (once or twice)
the set holds exactly one membership for it. -/
theorem register_idempotent (h : HubState) (c : Client)
    (hwf : (hubIds h).Nodup) :
    (hubStep (hubStep h (.register c)).1 (.register c)).1
        = (hubStep h (.register c)).1 ∧
    ((hubStep h (.register c)).1.clients.countP (fun x => x.id == c.id)) = 1 := by
  by_cases hmem : c.id ∈ hubIds h
  · have hstep : hubStep h (.register c) = (h, []) := by
      unfold hubStep
      exact if_pos hmem
    rw [hstep]
    exact ⟨by rw [hstep], countP_eq_one_of_nodup_mem hwf hmem⟩
  · have hstep : hubStep h (.register c) = ({ clients := h.clients ++ [c] }, []) := by
      unfold hubStep
      exact if_neg hmem
    have hids : (h.clients ++ [c]).map Client.id = hubIds h ++ [c.id] := by
      simp [hubIds]
    have hmem2 : c.id ∈ hubIds { clients := h.clients ++ [c] } := by
      simp [hubIds]
    have hstep2 : hubStep { clients := h.clients ++ [c] } (.register c)
        = ({ clients := h.clients ++ [c] }, []) := by
      unfold hubStep
      exact if_pos hmem2
    rw [hstep]
    constructor
    · show (hubStep { clients := h.clients ++ [c] } (.register c)).1
          = ({ clients := h.clients ++ [c] } : HubState)
      rw [hstep2]
    · show (h.clients ++ [c]).countP (fun x => x.id == c.id) = 1
      apply countP_eq_one_of_nodup_mem
      · rw [hids, List.nodup_append]
        refine ⟨hwf, List.nodup_singleton _, ?_⟩
        intro a ha hb
        rw [List.mem_singleton] at hb
        exact hmem (hb ▸ ha)
      · rw [hids]
        exact List.mem_append_right _ (List.mem_singleton_self _)

/-- Witness for the amended C3 at the empty hub and the client with
id 1. -/
theorem register_idempotent_witness :
    (hubIds hubEmpty).Nodup ∧
    ((hubStep (hubStep hubEmpty (.register (mkClient 1))).1
          (.register (mkClient 1))).1
        = (hubStep hubEmpty (.register (mkClient 1))).1 ∧
     ((hubStep hubEmpty (.register (mkClient 1))).1.clients.countP
        (fun x => x.id == (mkClient 1).id)) = 1) :=
  ⟨by decide, register_idempotent hubEmpty (mkClient 1) (by decide)⟩

/-- C4: along any request sequence whose register requests carry fresh
client identities (fresh pointers, as Go guarantees), the queue of each client
 is closed at most once; and an unregister request for a client
not in the set is a no-op that closes nothing — in particular an
unregister arriving after the broadcast path already removed and
closed the client does not close its queue a second time. -/
theorem hub_queue_closed_at_most_once (h : HubState) (rs : List HubReq) (i : Nat)
    (hfresh : (hubIds h ++ regIds rs).Nodup) :
    (hubRun h rs).2.count i ≤ 1 ∧
    (i ∉ hubIds h → hubStep h (.unregister i) = (h, [])) := by
  refine ⟨hubRun_count_le_one rs h i hfresh, ?_⟩
  intro hid
  unfold hubStep
  exact if_neg hid

/-- Witness for C4: a hub whose only client has a saturated queue; a
broadcast closes it once, the following unregister is a no-op, so the
total number of closes of id 1 is one. -/
theorem hub_queue_closed_at_most_once_witness :
    (hubIds { clients := [fullClient] } ++
        regIds [.broadcast "m", .unregister 1]).Nodup ∧
    ((hubRun { clients := [fullClient] } [.broadcast "m", .unregister 1]).2.count 1 ≤ 1 ∧
     (1 ∉ hubIds { clients := [fullClient] } →
        hubStep { clients := [fullClient] } (.unregister 1)
          = ({ clients := [fullClient] }, []))) :=
  ⟨by decide,
    hub_queue_closed_at_most_once { clients := [fullClient] }
      [.broadcast "m", .unregister 1] 1 (by decide)⟩

/-! ## The HTTP handlers of `main.go` -/

/-- The global mutable server state guarded by `mu` in `main.go`. -/
structure ServerState where
  alertCriteria : List AlertCriteria
  triggeredAlerts : List Alert

/-- An HTTP response whose body is a JSON string-to-string object, as
produced by `c.JSON(status, map[string]string{...})`. -/
structure MapResponse where
  status : Nat
  body : List (String × String)
deriving Repr, DecidableEq

/-- The `POST /api/aircraft` handler.  `decoded` is the result of
`json.NewDecoder(...).Decode(&aircraft)` (`none` on error); the two
oracles model `json.Marshal`, which can fail.  On success the handler
overwrites the timestamp of the aircraft with the current tick, emits the
`aircraftUpdate` frame when its marshal succeeds, runs the matching
loop, and acknowledges with HTTP 200 unconditionally.  Returns the new
state, the response, and the frames handed to `hub.broadcast`. -/
def postAircraft (marshalAircraft : Aircraft → Option String)
    (marshalAlert : Alert → Option String) (st : ServerState)
    (decoded : Option Aircraft) (t : Time) :
    ServerState × MapResponse × List Msg :=
  match decoded with
  | none =>
    (st, { status := 400, body := [("error", "Invalid aircraft data")] }, [])
  | some a0 =>
    let aircraft := { a0 with timestamp := t }
    let updateMsgs := match marshalAircraft aircraft with
      | none => []
      | some s => [sseFrame "aircraftUpdate" s]
    let r := processCriteria marshalAlert aircraft st.alertCriteria (t + 1)
    ({ st with triggeredAlerts := st.triggeredAlerts ++ r.1 },
     { status := 200, body := [("status", "received")] },
     updateMsgs ++ r.2.1)

/-- An HTTP response carrying a JSON array of alerts. -/
structure AlertsResponse where
  status : Nat
  body : List Alert

/-- `alertsToReturn := make([]Alert, len(triggeredAlerts))` followed by
`copy`: an element-wise fresh copy of the alert log. -/
def copyAlerts : List Alert → List Alert
  | [] => []
  | a :: rest => a :: copyAlerts rest

/-- The `GET /api/alerts` handler: returns a fresh copy of the alert
log with HTTP 200 and leaves the server state untouched. -/
def getAlerts (st : ServerState) : ServerState × AlertsResponse :=
  (st, { status := 200, body := copyAlerts st.triggeredAlerts })

/-- Body of a `POST /api/alert-criteria` response: either the error
object or the echoed criterion. -/
inductive CriteriaBody where
  | err (msg : String)
  | crit (c : AlertCriteria)
deriving Repr, DecidableEq

/-- An HTTP response for the criteria endpoint. -/
structure CriteriaResponse where
  status : Nat
  body : CriteriaBody
deriving Repr, DecidableEq

/-- The `POST /api/alert-criteria` handler: on decode failure HTTP 400;
otherwise append the criterion and echo it back with HTTP 201. -/
def postAlertCriteria (st : ServerState) (decoded : Option AlertCriteria) :
    ServerState × CriteriaResponse :=
  match decoded with
  | none => (st, { status := 400, body := .err "Invalid criteria data" })
  | some c =>
    ({ st with alertCriteria := st.alertCriteria ++ [c] },
     { status := 201, body := .crit c })

/-- The two criteria appended in `main` before the server starts. Go
zero values leave the unmentioned field `""`. -/
def initialCriteria : List AlertCriteria :=
  [{ callsign := "TARGET1" }, { icao := "AABBCC" }]

/-! ## Claims about the matching engine and the handlers -/

/-- C1: the matching loop walks the criteria in list order; a criterion
matches exactly when a populated icao field equals the icao of the aircraft
or a populated callsign field equals the callsign of the aircraft (OR of the
two fields, one alert even when both match); each matching criterion
contributes exactly one alert, duplicates and all, and an aircraft
matching nothing contributes none — the criteria of the produced alerts are
precisely the matching criteria in order. -/
theorem matching_or_one_alert_per_criterion (mAl : Alert → Option String)
    (a : Aircraft) (cs : List AlertCriteria) (t : Time) :
    ((processCriteria mAl a cs t).1.map Alert.criteria
        = cs.filter (fun c => matchesCriterion c a)) ∧
    (∀ al ∈ (processCriteria mAl a cs t).1, al.aircraft = a) ∧
    (∀ c : AlertCriteria, matchesCriterion c a = true ↔
      ((c.icao ≠ "" ∧ c.icao = a.icao) ∨
       (c.callsign ≠ "" ∧ c.callsign = a.callsign))) := by
  refine ⟨?_, ?_, ?_⟩
  · rw [processCriteria_alerts]
    exact evaluateAlerts_criteria a cs t
  · rw [processCriteria_alerts]
    exact evaluateAlerts_aircraft a cs t
  · intro c
    simp [matchesCriterion, Bool.or_eq_true, Bool.and_eq_true, bne_iff_ne,
      beq_iff_eq, ne_eq]

/-- Aircraft from the example in the spec: icao matches the criterion,
callsign does not. -/
def demoAircraft : Aircraft :=
  { icao := "AABBCC", callsign := "Y", lat := 0, lon := 0, alt_baro := 0,
    gs := 0, track := 0, timestamp := 0 }

/-- Criterion with both fields populated, from the example in the spec. -/
def demoCriterion : AlertCriteria := { icao := "AABBCC", callsign := "X" }

/-- Witness for C1 at the example from the spec: one alert, OR semantics. -/
theorem matching_or_one_alert_per_criterion_witness :
    ((processCriteria (fun _ => none) demoAircraft [demoCriterion] 0).1.map
        Alert.criteria
      = [demoCriterion].filter (fun c => matchesCriterion c demoAircraft)) ∧
    (mkAlert demoAircraft demoCriterion 0).aircraft = demoAircraft :=
  ⟨(matching_or_one_alert_per_criterion (fun _ => none) demoAircraft
      [demoCriterion] 0).1,
   (matching_or_one_alert_per_criterion (fun _ => none) demoAircraft
      [demoCriterion] 0).2.1 (mkAlert demoAircraft demoCriterion 0)
      (List.Mem.head _)⟩

/-- C5: a body that fails to decode yields HTTP 400 with the
`Invalid aircraft data` error object, no state change and no
broadcast. -/
theorem post_aircraft_malformed_rejected (mA : Aircraft → Option String)
    (mAl : Alert → Option String) (st : ServerState) (t : Time) :
    postAircraft mA mAl st none t
      = (st, { status := 400, body := [("error", "Invalid aircraft data")] },
         []) :=
  rfl

/-- C6: `GET /api/alerts` returns HTTP 200 with the alert log in
trigger order, as a fresh element-wise copy, and leaves the server
state unchanged, so every subsequent call returns the same log. -/
theorem get_alerts_snapshot (st : ServerState) :
    (getAlerts st).1 = st ∧
    (getAlerts st).2.status = 200 ∧
    (getAlerts st).2.body = st.triggeredAlerts ∧
    (getAlerts (getAlerts st).1).2.body = (getAlerts st).2.body := by
  have hcopy : ∀ l : List Alert, copyAlerts l = l := by
    intro l
    induction l with
    | nil => rfl
    | cons a rest ih => simp [copyAlerts, ih]
  exact ⟨rfl, rfl, hcopy _, rfl⟩

/-- C7: marshal failures are isolated to the broadcast they would have
produced.  Whatever the two marshal oracles do, a decoded ingestion is
acknowledged with HTTP 200 `{"status":"received"}`, the criteria list
is untouched, and the appended alerts are exactly the pure matching
result; the frames actually broadcast are the aircraft frame when its
marshal succeeds plus one alert frame per matching criterion whose
marshal succeeds. -/
theorem marshal_failure_skips_only_that_broadcast
    (mA : Aircraft → Option String) (mAl : Alert → Option String)
    (st : ServerState) (a0 : Aircraft) (t : Time) :
    (postAircraft mA mAl st (some a0) t).2.1
        = { status := 200, body := [("status", "received")] } ∧
    (postAircraft mA mAl st (some a0) t).1.alertCriteria = st.alertCriteria ∧
    (postAircraft mA mAl st (some a0) t).1.triggeredAlerts
        = st.triggeredAlerts ++
            evaluateAlerts { a0 with timestamp := t } st.alertCriteria (t + 1) ∧
    (postAircraft mA mAl st (some a0) t).2.2
        = (match mA { a0 with timestamp := t } with
           | none => []
           | some s => [sseFrame "aircraftUpdate" s]) ++
          (evaluateAlerts { a0 with timestamp := t } st.alertCriteria
              (t + 1)).filterMap
            (fun al => (mAl al).map (fun s => sseFrame "alert" s)) := by
  refine ⟨rfl, rfl, ?_, ?_⟩
  · simp only [postAircraft]
    rw [processCriteria_alerts]
  · simp only [postAircraft]
    rw [processCriteria_msgs]

/-- C8: the stored and broadcast timestamp is the one the server assigns: the decoded
record timestamp field is overwritten, so two request bodies
differing only in their timestamp produce identical results, and every
alert appended by the ingestion snapshots the aircraft with the
server-assigned tick. -/
theorem server_assigns_timestamp (mA : Aircraft → Option String)
    (mAl : Alert → Option String) (st : ServerState) (a0 : Aircraft)
    (t tp : Time) :
    postAircraft mA mAl st (some { a0 with timestamp := tp }) t
        = postAircraft mA mAl st (some a0) t ∧
    (∀ al ∈ (postAircraft mA mAl st (some a0) t).1.triggeredAlerts.drop
        st.triggeredAlerts.length, al.aircraft = { a0 with timestamp := t }) := by
  constructor
  · rfl
  · intro al hal
    have hlog : (postAircraft mA mAl st (some a0) t).1.triggeredAlerts
        = st.triggeredAlerts ++
            evaluateAlerts { a0 with timestamp := t } st.alertCriteria (t + 1) := by
      simp only [postAircraft]
      rw [processCriteria_alerts]
    rw [hlog, List.drop_left] at hal
    exact evaluateAlerts_aircraft _ _ _ al hal

/-- Server state as seeded at startup, with no alerts yet. -/
def demoState : ServerState :=
  { alertCriteria := initialCriteria, triggeredAlerts := [] }

/-- Witness for C8: a request body carrying timestamp 99 is ingested at
tick 5; the result equals that of the body without the timestamp, and
the alert triggered by the `AABBCC` criterion snapshots the aircraft
with timestamp 5. -/
theorem server_assigns_timestamp_witness :
    postAircraft (fun _ => none) (fun _ => none) demoState
        (some { demoAircraft with timestamp := 99 }) 5
      = postAircraft (fun _ => none) (fun _ => none) demoState
          (some demoAircraft) 5 ∧
    (mkAlert { demoAircraft with timestamp := 5 } { icao := "AABBCC" } 6).aircraft
      = { demoAircraft with timestamp := 5 } :=
  ⟨(server_assigns_timestamp (fun _ => none) (fun _ => none) demoState
      demoAircraft 5 99).1,
   (server_assigns_timestamp (fun _ => none) (fun _ => none) demoState
      demoAircraft 5 99).2
     (mkAlert { demoAircraft with timestamp := 5 } { icao := "AABBCC" } 6)
     (List.Mem.head _)⟩

/-- C9: before any criteria request is served, the criteria list is the
two-element seed `{callsign:"TARGET1"}`, `{icao:"AABBCC"}` in that
order, so an aircraft carrying that callsign or that icao already
triggers an alert. -/
theorem initial_criteria_seeded (a : Aircraft) (t : Time) :
    initialCriteria = [{ icao := "", callsign := "TARGET1" },
                       { icao := "AABBCC", callsign := "" }] ∧
    (a.callsign = "TARGET1" → evaluateAlerts a initialCriteria t ≠ []) ∧
    (a.icao = "AABBCC" → evaluateAlerts a initialCriteria t ≠ []) := by
  refine ⟨rfl, ?_, ?_⟩
  · intro hcs
    simp [evaluateAlerts, initialCriteria, matchesCriterion, hcs]
  · intro hic
    by_cases hcs : a.callsign = "TARGET1"
    · simp [evaluateAlerts, initialCriteria, matchesCriterion, hcs]
    · simp [evaluateAlerts, initialCriteria, matchesCriterion, hcs, hic]
      split <;> simp

/-- An aircraft carrying the pre-seeded callsign. -/
def targetAircraft : Aircraft :=
  { icao := "DDEEFF", callsign := "TARGET1", lat := 0, lon := 0, alt_baro := 0,
    gs := 0, track := 0, timestamp := 0 }

/-- Witness for C9: the seeded criteria alert on callsign `TARGET1`
with no client-added criterion. -/
theorem initial_criteria_seeded_witness :
    targetAircraft.callsign = "TARGET1" ∧
    evaluateAlerts targetAircraft initialCriteria 0 ≠ [] :=
  ⟨rfl, (initial_criteria_seeded targetAircraft 0).2.1 rfl⟩

/-- The all-empty criterion, as decoded from `{}` or from a body
without the two fields. -/
def emptyCriterion : AlertCriteria := {}

/-- C10: `POST /api/alert-criteria` accepts the all-empty criterion —
it is appended and echoed back with HTTP 201 — and an all-empty
criterion matches no aircraft, so it never produces an alert. -/
theorem empty_criterion_accepted_never_matches (st : ServerState)
    (a : Aircraft) (t : Time) :
    postAlertCriteria st (some emptyCriterion)
        = ({ st with alertCriteria := st.alertCriteria ++ [emptyCriterion] },
           { status := 201, body := .crit emptyCriterion }) ∧
    matchesCriterion emptyCriterion a = false ∧
    evaluateAlerts a [emptyCriterion] t = [] :=
  ⟨rfl, rfl, rfl⟩

end AircraftAlert
